import Mathlib

set_option maxRecDepth 100000

/-!
Shallow embedding of the streaming bridge of the Dust MCP relay server
(the SSE endpoint handler): request validation, the upstream conversation
setup flow (`createDustRun`), the run-status poll loop (`checkRun`), and
the SSE event framing done by `sendEvent`.  Upstream behaviour is modelled
as explicit oracles; the sequential await semantics of the handler is
modelled as a trace of upstream calls in the order they are awaited.
-/

/-- A chat message as handled by the server; also used for the message
records returned by the upstream message-list fetch. -/
structure ChatMessage where
  role : String
  content : String
deriving DecidableEq

/-- Identifiers returned by a successful `createDustRun`. -/
structure RunInfo where
  conversationId : String
  runId : String
deriving DecidableEq

/-- One upstream HTTP call made by the handler, listed in await order. -/
inductive UpstreamCall where
  | createConversation
  | postMessage (message : ChatMessage)
  | createRun
  | pollStatus (attempt : Nat)
  | fetchMessages
deriving DecidableEq

/-- Behaviour of the upstream collaborator for the setup phase: the result
of the conversation-creation POST (its `conversation.sId` on success), of
the i-th message POST (0-based), and of the run-creation POST (its
`run.sId` on success).  `.error m` models a throw whose message is `m`. -/
structure SetupUpstream where
  createConversationResult : Except String String
  postMessageResult : Nat → ChatMessage → Except String Unit
  createRunResult : Except String String

/-- Behaviour of the upstream collaborator during polling: the result of
the run-status GET on a given attempt (1-based) — a status string on
success — and of the message-list GET performed once at completion. -/
structure PollUpstream where
  pollResult : Nat → Except String String
  fetchResult : Except String (List ChatMessage)

/-- The event objects written by `sendEvent` in the source, as a closed
variant.  `setupError` is the event sent when `createDustRun` throws: it
carries no run id and no conversation id, unlike poll-phase errors. -/
inductive OutboundEvent where
  | start (id conversationId : String)
  | content (id contentText role conversationId : String)
  | endEvent (id conversationId : String)
  | error (id errorText conversationId : String)
  | setupError (errorText : String)
deriving DecidableEq

/-- Modelled message of the TypeError thrown when the code reads `.role`
of `undefined` (the last element of an empty `messages` array); the exact
wording is engine-specific and never inspected by the server. -/
def undefinedRoleError : String :=
  "Cannot read properties of undefined (reading role)"

/-- The context-message loop of `createDustRun`: posts each message in
order, awaiting each before the next; a throw aborts the loop and is
rethrown wrapped by `addDustMessage` as a failed-post error. -/
def postContextMessages (su : SetupUpstream) :
    List ChatMessage → Nat → List UpstreamCall × Except String Unit
  | [], _ => ([], .ok ())
  | m :: rest, i =>
    match su.postMessageResult i m with
    | .error e => ([.postMessage m], .error ("Failed to post message: " ++ e))
    | .ok _ =>
      match postContextMessages su rest (i + 1) with
      | (tr, r) => (.postMessage m :: tr, r)

/-- Model of `createDustRun(messages)`: creates a conversation, posts all but the
last message as context in order, posts the last message, then creates a
run.  Each upstream failure is rethrown with the wrapping the source adds;
for empty `messages` the user message is `undefined` and reading its
`.role` throws before any message POST is made. -/
def createDustRun (su : SetupUpstream) (messages : List ChatMessage) :
    List UpstreamCall × Except String RunInfo :=
  match su.createConversationResult with
  | .error e =>
      ([.createConversation], .error ("Failed to create conversation: " ++ e))
  | .ok conversationId =>
    match messages.getLast? with
    | none =>
        ([.createConversation], .error ("Failed to post message: " ++ undefinedRoleError))
    | some userMessage =>
      let context := messages.dropLast
      match postContextMessages su context 0 with
      | (tr, .error e) => (.createConversation :: tr, .error e)
      | (tr, .ok _) =>
        match su.postMessageResult context.length userMessage with
        | .error e =>
            (.createConversation :: tr ++ [.postMessage userMessage],
             .error ("Failed to post message: " ++ e))
        | .ok _ =>
          match su.createRunResult with
          | .error e =>
              (.createConversation :: tr ++ [.postMessage userMessage, .createRun],
               .error ("Failed to create run: " ++ e))
          | .ok runId =>
              (.createConversation :: tr ++ [.postMessage userMessage, .createRun],
               .ok ⟨conversationId, runId⟩)

/-- The `maxRetries` constant in the source: the poll-attempt cap. -/
def maxRetries : Nat := 60

/-- One scheduled `checkRun` tick and its successors.  `fuel` is only a
structural-recursion artifact: the entry point supplies
`maxRetries` and the loop re-schedules only while the incremented retry
counter stays below `maxRetries`, so fuel never runs out (proved below).
Returns the events sent, the upstream calls made, and whether `res.end()`
was called (`false` models a connection left open with no further tick
scheduled). -/
def checkRunAux (pu : PollUpstream) (runId conversationId : String) :
    Nat → Nat → Bool → List OutboundEvent × List UpstreamCall × Bool
  | 0, _, _ => ([], [], false)
  | fuel + 1, retries, contentSent =>
    let r := retries + 1
    match pu.pollResult r with
    | .error msg =>
        ([.error runId ("Error: " ++ msg) conversationId], [.pollStatus r], true)
    | .ok status =>
      if status = "completed" then
        if contentSent then
          ([.endEvent runId conversationId], [.pollStatus r], true)
        else
          match pu.fetchResult with
          | .error msg =>
              ([.error runId ("Error: " ++ msg) conversationId],
               [.pollStatus r, .fetchMessages], true)
          | .ok msgs =>
            let assistantMessages := msgs.filter (fun m => m.role = "assistant")
            match assistantMessages.getLast? with
            | some lastMessage =>
                ([.content runId lastMessage.content "assistant" conversationId,
                  .endEvent runId conversationId],
                 [.pollStatus r, .fetchMessages], true)
            | none =>
                ([.endEvent runId conversationId],
                 [.pollStatus r, .fetchMessages], true)
      else if status = "in_progress" ∨ status = "pending" then
        if r < maxRetries then
          match checkRunAux pu runId conversationId fuel r contentSent with
          | (evs, tr, ended) => (evs, .pollStatus r :: tr, ended)
        else
          ([.error runId "Request timed out" conversationId], [.pollStatus r], true)
      else if status = "failed" then
        ([.error runId "Run failed" conversationId], [.pollStatus r], true)
      else
        ([], [.pollStatus r], false)

/-- The poll loop as started by the handler: first tick scheduled with
`retries = 0` and `contentSent = false`. -/
def checkRun (pu : PollUpstream) (runId conversationId : String) :
    List OutboundEvent × List UpstreamCall × Bool :=
  checkRunAux pu runId conversationId maxRetries 0 false

/-- The `messages` field of the parsed `params`, as validated by the
source: a value that is absent or not an array is rejected
(every such value fails the array test), and every array passes. -/
inductive MessagesField where
  | notArray
  | array (messages : List ChatMessage)

/-- Outcome of one SSE request: an early JSON-RPC error response, or an
SSE stream of events together with whether the response was ended. -/
inductive StreamResult where
  | badRequest (code : Int) (message : String)
  | stream (events : List OutboundEvent) (ended : Bool)
deriving DecidableEq

/-- The SSE endpoint handler: method check, `messages` validation, then
`createDustRun`; on setup failure a single id-less error event; on success
the `start` event followed by the poll loop.  Returns the upstream-call
trace and the stream outcome. -/
def handleStream (su : SetupUpstream) (pu : PollUpstream)
    (method : String) (field : MessagesField) :
    List UpstreamCall × StreamResult :=
  if method = "chat" then
    match field with
    | .notArray =>
        ([], .badRequest (-32602) "Invalid params: messages must be an array")
    | .array messages =>
      let res := createDustRun su messages
      match res.2 with
      | .error e => (res.1, .stream [.setupError ("Error: " ++ e)] true)
      | .ok info =>
        let pr := checkRun pu info.runId info.conversationId
        (res.1 ++ pr.2.1,
         .stream (.start info.runId info.conversationId :: pr.1) pr.2.2)
  else
    ([], .badRequest (-32601) ("Method " ++ method ++ " not supported"))

/-- Events of a stream outcome (empty for an early JSON-RPC rejection). -/
def resultEvents : StreamResult → List OutboundEvent
  | .badRequest _ _ => []
  | .stream evs _ => evs

/-- Whether the response was ended (false for rejections and for a
connection left open). -/
def resultEnded : StreamResult → Bool
  | .badRequest _ _ => false
  | .stream _ ended => ended

def isStartB : OutboundEvent → Bool
  | .start _ _ => true
  | _ => false

def isContentB : OutboundEvent → Bool
  | .content _ _ _ _ => true
  | _ => false

def isEndB : OutboundEvent → Bool
  | .endEvent _ _ => true
  | _ => false

def isErrorB : OutboundEvent → Bool
  | .error _ _ _ => true
  | .setupError _ => true
  | _ => false

/-- Terminal events: `end` or an error event. -/
def isTerminalB (e : OutboundEvent) : Bool :=
  isEndB e || isErrorB e

def isPollStatusB : UpstreamCall → Bool
  | .pollStatus _ => true
  | _ => false

/-- The upstream status contract: every successful run-status GET returns
one of the four documented status strings. -/
def ContractStatuses (pu : PollUpstream) : Prop :=
  ∀ a s, pu.pollResult a = .ok s →
    s = "completed" ∨ s = "in_progress" ∨ s = "pending" ∨ s = "failed"

/-!
### JSON serialization and SSE framing

`sendEvent` writes `data: ` followed by `JSON.stringify(event)` and two
newlines.  The event objects only ever contain string values and nested
objects, so the JSON universe is modelled by the mutual pair
`JVal`/`JFields` (object fields in insertion order, as `JSON.stringify`
preserves them).  The renderer mirrors `JSON.stringify`'s escaping rules;
the parser is the conforming client side.
-/

mutual
inductive JVal where
  | str (s : String)
  | obj (fields : JFields)
deriving DecidableEq
inductive JFields where
  | nil
  | cons (key : String) (value : JVal) (rest : JFields)
deriving DecidableEq
end

/-- The opening brace character (written via its code point). -/
def lbrace : Char := Char.ofNat 123

/-- The closing brace character (written via its code point). -/
def rbrace : Char := Char.ofNat 125

/-- Lowercase hexadecimal digit, as used by `JSON.stringify` in `\uXXXX`
escapes. -/
def hexDigit (n : Nat) : Char :=
  if n < 10 then Char.ofNat (48 + n) else Char.ofNat (87 + n)

/-- The `JSON.stringify` escaping of one character: quote and backslash are
escaped, the control characters with short escapes use them, the remaining
control characters (code points below 32) become `\u00xx`, and every other
character is emitted as-is. -/
def escapeChar (c : Char) : List Char :=
  if c = '"' then ['\\', '"']
  else if c = '\\' then ['\\', '\\']
  else if c = '\n' then ['\\', 'n']
  else if c = '\r' then ['\\', 'r']
  else if c = '\t' then ['\\', 't']
  else if c.toNat = 8 then ['\\', 'b']
  else if c.toNat = 12 then ['\\', 'f']
  else if c.toNat < 32 then
    ['\\', 'u', '0', '0', hexDigit (c.toNat / 16), hexDigit (c.toNat % 16)]
  else [c]

/-- A JSON string literal: quoted, body escaped characterwise. -/
def renderString (s : List Char) : List Char :=
  '"' :: (s.map escapeChar).flatten ++ ['"']

mutual
/-- Rendering as `JSON.stringify` does, for the modelled JSON universe. -/
def renderJVal : JVal → List Char
  | .str s => renderString s.data
  | .obj fields => lbrace :: renderFields fields ++ [rbrace]
/-- Fields rendered `"key":value`, comma-separated, in order. -/
def renderFields : JFields → List Char
  | .nil => []
  | .cons k v rest =>
      renderString k.data ++ ':' :: renderJVal v ++
        (match rest with
         | .nil => []
         | .cons _ _ _ => ',' :: renderFields rest)
end

/-- The JSON object written by `sendEvent` for each outbound event, with
keys in the insertion order of the source object literals. -/
def eventJson : OutboundEvent → JVal
  | .start id cid =>
      .obj (.cons "jsonrpc" (.str "2.0") (.cons "method" (.str "chat")
        (.cons "params" (.obj (.cons "type" (.str "start")
          (.cons "id" (.str id)
          (.cons "conversationId" (.str cid) .nil)))) .nil)))
  | .content id contentText role cid =>
      .obj (.cons "jsonrpc" (.str "2.0") (.cons "method" (.str "chat")
        (.cons "params" (.obj (.cons "type" (.str "content")
          (.cons "id" (.str id)
          (.cons "content" (.str contentText)
          (.cons "role" (.str role)
          (.cons "conversationId" (.str cid) .nil)))))) .nil)))
  | .endEvent id cid =>
      .obj (.cons "jsonrpc" (.str "2.0") (.cons "method" (.str "chat")
        (.cons "params" (.obj (.cons "type" (.str "end")
          (.cons "id" (.str id)
          (.cons "conversationId" (.str cid) .nil)))) .nil)))
  | .error id errorText cid =>
      .obj (.cons "jsonrpc" (.str "2.0") (.cons "method" (.str "chat")
        (.cons "params" (.obj (.cons "type" (.str "error")
          (.cons "id" (.str id)
          (.cons "error" (.str errorText)
          (.cons "conversationId" (.str cid) .nil))))) .nil)))
  | .setupError errorText =>
      .obj (.cons "jsonrpc" (.str "2.0") (.cons "method" (.str "chat")
        (.cons "params" (.obj (.cons "type" (.str "error")
          (.cons "error" (.str errorText) .nil))) .nil)))

/-- The SSE frame written by `sendEvent`:
`data: ` ++ JSON encoding ++ two newlines. -/
def sendEventFrame (e : OutboundEvent) : List Char :=
  "data: ".data ++ renderJVal (eventJson e) ++ ['\n', '\n']

/-- Parse one hexadecimal digit (either case). -/
def parseHexDigit (c : Char) : Option Nat :=
  if '0' ≤ c ∧ c ≤ '9' then some (c.toNat - 48)
  else if 'a' ≤ c ∧ c ≤ 'f' then some (c.toNat - 87)
  else if 'A' ≤ c ∧ c ≤ 'F' then some (c.toNat - 55)
  else none

/-- Parse the body of a JSON string literal up to its closing quote,
decoding escapes; returns the decoded characters and the remaining input.
Fuel is a recursion artifact (one unit per consumed escape or character);
callers supply at least the input length plus one. -/
def parseStringBody : Nat → List Char → Option (List Char × List Char)
  | 0, _ => none
  | _ + 1, [] => none
  | fuel + 1, c :: rest =>
    if c = '"' then some ([], rest)
    else if c = '\\' then
      match rest with
      | [] => none
      | e :: rest2 =>
        if e = '"' then
          match parseStringBody fuel rest2 with
          | some (s, r) => some ('"' :: s, r)
          | none => none
        else if e = '\\' then
          match parseStringBody fuel rest2 with
          | some (s, r) => some ('\\' :: s, r)
          | none => none
        else if e = '/' then
          match parseStringBody fuel rest2 with
          | some (s, r) => some ('/' :: s, r)
          | none => none
        else if e = 'n' then
          match parseStringBody fuel rest2 with
          | some (s, r) => some ('\n' :: s, r)
          | none => none
        else if e = 'r' then
          match parseStringBody fuel rest2 with
          | some (s, r) => some ('\r' :: s, r)
          | none => none
        else if e = 't' then
          match parseStringBody fuel rest2 with
          | some (s, r) => some ('\t' :: s, r)
          | none => none
        else if e = 'b' then
          match parseStringBody fuel rest2 with
          | some (s, r) => some (Char.ofNat 8 :: s, r)
          | none => none
        else if e = 'f' then
          match parseStringBody fuel rest2 with
          | some (s, r) => some (Char.ofNat 12 :: s, r)
          | none => none
        else if e = 'u' then
          match rest2 with
          | h1 :: h2 :: h3 :: h4 :: rest3 =>
            match parseHexDigit h1, parseHexDigit h2,
                  parseHexDigit h3, parseHexDigit h4 with
            | some a, some b, some c2, some d =>
              match parseStringBody fuel rest3 with
              | some (s, r) =>
                  some (Char.ofNat (((a * 16 + b) * 16 + c2) * 16 + d) :: s, r)
              | none => none
            | _, _, _, _ => none
          | _ => none
        else none
    else
      match parseStringBody fuel rest with
      | some (s, r) => some (c :: s, r)
      | none => none

mutual
/-- Parse one JSON value of the modelled universe (a string literal or an
object).  Fuel decreases at every recursive call; callers supply at least
the input length plus one. -/
def parseJVal : Nat → List Char → Option (JVal × List Char)
  | 0, _ => none
  | fuel + 1, input =>
    match input with
    | [] => none
    | c :: rest =>
      if c = '"' then
        match parseStringBody (rest.length + 1) rest with
        | some (s, r) => some (.str (String.mk s), r)
        | none => none
      else if c = lbrace then
        match rest with
        | [] => none
        | c2 :: rest2 =>
          if c2 = rbrace then some (.obj .nil, rest2)
          else
            match parseFields fuel rest with
            | some (fs, r) => some (.obj fs, r)
            | none => none
      else none
/-- Parse a nonempty field list `"key":value(,…)*` followed by the closing
brace, which is consumed. -/
def parseFields : Nat → List Char → Option (JFields × List Char)
  | 0, _ => none
  | fuel + 1, input =>
    match input with
    | c :: rest =>
      if c = '"' then
        match parseStringBody (rest.length + 1) rest with
        | some (k, ':' :: rest2) =>
          match parseJVal fuel rest2 with
          | some (v, rest3) =>
            match rest3 with
            | ',' :: more =>
              match parseFields fuel more with
              | some (fs, r) => some (.cons (String.mk k) v fs, r)
              | none => none
            | c3 :: r =>
                if c3 = rbrace then some (.cons (String.mk k) v .nil, r)
                else none
            | [] => none
          | none => none
        | _ => none
      else none
    | [] => none
end

/-- Split the input at the first newline: the part before it and the part
after it (the conforming SSE client's line splitting). -/
def splitAtNL : List Char → Option (List Char × List Char)
  | [] => none
  | c :: rest =>
    if c = '\n' then some ([], rest)
    else
      match splitAtNL rest with
      | some (s, r) => some (c :: s, r)
      | none => none

/-- The conforming SSE client's extraction of one frame's data payload:
the frame must begin with `data: `, the payload is the rest of that line,
and the frame must end with the blank line that dispatches the event. -/
def extractData (frame : List Char) : Option (List Char) :=
  if frame.take 6 = "data: ".data then
    match splitAtNL (frame.drop 6) with
    | some (payload, tail) => if tail = ['\n'] then some payload else none
    | none => none
  else none

/-- Full client-side decoding of one SSE frame: extract the data payload
and parse it as a complete JSON value. -/
def decodeSSEFrame (frame : List Char) : Option JVal :=
  match extractData frame with
  | some payload =>
    match parseJVal (payload.length + 1) payload with
    | some (v, []) => some v
    | _ => none
  | none => none

mutual
/-- Node count of a JSON value, a fuel lower bound for `parseJVal`. -/
def jsizeV : JVal → Nat
  | .str _ => 1
  | .obj fs => 1 + jsizeF fs
/-- Node count of a field list. -/
def jsizeF : JFields → Nat
  | .nil => 1
  | .cons _ v rest => 1 + jsizeV v + jsizeF rest
end

/-!
### Concrete scenario inputs
-/

/-- Setup upstream where every call succeeds. -/
def suAllOk : SetupUpstream := ⟨.ok "conv1", fun _ _ => .ok (), .ok "run1"⟩

/-- Setup upstream where conversation creation throws. -/
def suConvFail : SetupUpstream :=
  ⟨.error "network down", fun _ _ => .ok (), .ok "run1"⟩

/-- Poll upstream: `completed` at once, one assistant message. -/
def puCompletedHello : PollUpstream :=
  ⟨fun _ => .ok "completed", .ok [⟨"assistant", "Hello!"⟩]⟩

/-- Poll upstream: `completed` at once, empty message list. -/
def puCompletedEmpty : PollUpstream := ⟨fun _ => .ok "completed", .ok []⟩

/-- Poll upstream: `completed` at once, but no assistant message in the
conversation. -/
def puCompletedUserOnly : PollUpstream :=
  ⟨fun _ => .ok "completed", .ok [⟨"user", "Hi"⟩]⟩

/-- Poll upstream: forever `in_progress`. -/
def puInProgress : PollUpstream := ⟨fun _ => .ok "in_progress", .ok []⟩

/-- Poll upstream: `failed` at once. -/
def puFailed : PollUpstream := ⟨fun _ => .ok "failed", .ok []⟩

/-- Poll upstream: `in_progress` on the first attempt, `completed`
afterwards. -/
def puCompletedSecond : PollUpstream :=
  ⟨fun a => if a = 1 then .ok "in_progress" else .ok "completed",
   .ok [⟨"assistant", "Hello!"⟩]⟩

/-- Poll upstream: `completed` at once, but the message-list fetch
throws. -/
def puFetchThrow : PollUpstream := ⟨fun _ => .ok "completed", .error "boom"⟩

/-- A single-element chat request. -/
def oneUserMessage : List ChatMessage := [⟨"user", "Hi"⟩]

/-- A two-element chat request (one context message plus the user turn). -/
def twoMessages : List ChatMessage :=
  [⟨"assistant", "Earlier answer"⟩, ⟨"user", "Hi"⟩]

/-!
### Poll-loop lemmas
-/

/-- Under the upstream status contract, every live poll loop run ends the
response, and the events it emits are `[end]`, `[content, end]` or a
single error event. -/
theorem checkRunAux_shape (pu : PollUpstream) (rid cid : String)
    (hc : ContractStatuses pu) :
    ∀ fuel retries cs, maxRetries ≤ fuel + retries → retries < maxRetries →
      (checkRunAux pu rid cid fuel retries cs).2.2 = true ∧
      ((checkRunAux pu rid cid fuel retries cs).1 = [.endEvent rid cid] ∨
       (∃ c, (checkRunAux pu rid cid fuel retries cs).1 =
          [.content rid c "assistant" cid, .endEvent rid cid]) ∨
       (∃ m, (checkRunAux pu rid cid fuel retries cs).1 = [.error rid m cid])) := by
  intro fuel
  induction fuel with
  | zero => intro retries cs h1 h2; simp [maxRetries] at h1 h2; omega
  | succ f ih =>
    intro retries cs h1 h2
    cases hp : pu.pollResult (retries + 1) with
    | error m =>
        refine ⟨?_, .inr (.inr ⟨"Error: " ++ m, ?_⟩)⟩ <;> simp [checkRunAux, hp]
    | ok s =>
      rcases hc (retries + 1) s hp with hs | hs | hs | hs
      · subst hs
        cases cs with
        | true => exact ⟨by simp [checkRunAux, hp], .inl (by simp [checkRunAux, hp])⟩
        | false =>
          cases hf : pu.fetchResult with
          | error m =>
              exact ⟨by simp [checkRunAux, hp, hf],
                .inr (.inr ⟨"Error: " ++ m, by simp [checkRunAux, hp, hf]⟩)⟩
          | ok msgs =>
            cases hl : (msgs.filter (fun m => m.role = "assistant")).getLast? with
            | none => exact ⟨by simp [checkRunAux, hp, hf, hl],
                .inl (by simp [checkRunAux, hp, hf, hl])⟩
            | some lastMessage =>
                exact ⟨by simp [checkRunAux, hp, hf, hl],
                  .inr (.inl ⟨lastMessage.content, by simp [checkRunAux, hp, hf, hl]⟩)⟩
      · subst hs
        by_cases hr : retries + 1 < maxRetries
        · have := ih (retries + 1) cs (by omega) hr
          simpa [checkRunAux, hp, hr] using this
        · exact ⟨by simp [checkRunAux, hp, hr],
            .inr (.inr ⟨"Request timed out", by simp [checkRunAux, hp, hr]⟩)⟩
      · subst hs
        by_cases hr : retries + 1 < maxRetries
        · have := ih (retries + 1) cs (by omega) hr
          simpa [checkRunAux, hp, hr] using this
        · exact ⟨by simp [checkRunAux, hp, hr],
            .inr (.inr ⟨"Request timed out", by simp [checkRunAux, hp, hr]⟩)⟩
      · subst hs
        exact ⟨by simp [checkRunAux, hp], .inr (.inr ⟨"Run failed", by simp [checkRunAux, hp]⟩)⟩

/-- For every upstream behaviour, the poll loop emits at most one
`content` event. -/
theorem checkRunAux_content_le_one (pu : PollUpstream) (rid cid : String) :
    ∀ fuel retries cs,
      ((checkRunAux pu rid cid fuel retries cs).1.countP isContentB) ≤ 1 := by
  intro fuel
  induction fuel with
  | zero => intro retries cs; simp [checkRunAux]
  | succ f ih =>
    intro retries cs
    cases hp : pu.pollResult (retries + 1) with
    | error m => simp [checkRunAux, hp, isContentB]
    | ok s =>
      by_cases h1 : s = "completed"
      · subst h1
        cases cs with
        | true => simp [checkRunAux, hp, isContentB]
        | false =>
          cases hf : pu.fetchResult with
          | error m => simp [checkRunAux, hp, hf, isContentB]
          | ok msgs =>
            cases hl : (msgs.filter (fun m => m.role = "assistant")).getLast? with
            | none => simp [checkRunAux, hp, hf, hl, isContentB]
            | some lastMessage => simp [checkRunAux, hp, hf, hl, isContentB]
      · by_cases h2 : s = "in_progress" ∨ s = "pending"
        · by_cases hr : retries + 1 < maxRetries
          · have := ih (retries + 1) cs
            simpa [checkRunAux, hp, h1, h2, hr] using this
          · simp [checkRunAux, hp, h1, h2, hr, isContentB]
        · by_cases h3 : s = "failed"
          · subst h3; simp [checkRunAux, hp, isContentB]
          · simp [checkRunAux, hp, h1, h2, h3]

/-- If every poll attempt up to the cap reports a non-terminal status, the
loop emits exactly the timeout error, ends the response, and its upstream
trace is exactly one status poll per remaining attempt. -/
theorem checkRunAux_timeout (pu : PollUpstream) (rid cid : String)
    (hin : ∀ a, 1 ≤ a → a ≤ maxRetries →
      pu.pollResult a = .ok "in_progress" ∨ pu.pollResult a = .ok "pending") :
    ∀ fuel retries cs, fuel + retries = maxRetries → retries < maxRetries →
      ∃ tr, checkRunAux pu rid cid fuel retries cs =
          ([.error rid "Request timed out" cid], tr, true) ∧
        tr.countP isPollStatusB = fuel ∧ tr.length = fuel := by
  intro fuel
  induction fuel with
  | zero => intro retries cs h1 h2; omega
  | succ f ih =>
    intro retries cs h1 h2
    have hp := hin (retries + 1) (by omega) (by omega)
    by_cases hr : retries + 1 < maxRetries
    · obtain ⟨tr, heq, hcount, hlen⟩ := ih (retries + 1) cs (by omega) hr
      refine ⟨.pollStatus (retries + 1) :: tr, ?_, ?_, ?_⟩
      · rcases hp with hp | hp <;> simp [checkRunAux, hp, hr, heq]
      · simp [List.countP_cons, isPollStatusB, hcount]
      · simp [hlen]
    · refine ⟨[.pollStatus (retries + 1)], ?_, ?_, ?_⟩
      · rcases hp with hp | hp <;> simp [checkRunAux, hp, hr]
      · have : f = 0 := by simp [maxRetries] at h1 h2 hr; omega
        simp [this, isPollStatusB]
      · have : f = 0 := by simp [maxRetries] at h1 h2 hr; omega
        simp [this]

/-- Skipping past `j` non-terminal poll attempts: the loop behaves as if
started at attempt `retries + j + 1`, with `j` extra status polls in
front of the trace. -/
theorem checkRunAux_skip (pu : PollUpstream) (rid cid : String) (cs : Bool) :
    ∀ j fuel retries, maxRetries ≤ fuel + retries → retries + j < maxRetries →
      (∀ a, retries < a → a ≤ retries + j →
        pu.pollResult a = .ok "in_progress" ∨ pu.pollResult a = .ok "pending") →
      ∃ tr0, checkRunAux pu rid cid fuel retries cs =
        ((checkRunAux pu rid cid (fuel - j) (retries + j) cs).1,
         tr0 ++ (checkRunAux pu rid cid (fuel - j) (retries + j) cs).2.1,
         (checkRunAux pu rid cid (fuel - j) (retries + j) cs).2.2) := by
  intro j
  induction j with
  | zero =>
    intro fuel retries _ _ _
    exact ⟨[], by simp⟩
  | succ i ih =>
    intro fuel retries h1 h2 hin
    cases fuel with
    | zero => omega
    | succ f =>
      have hp := hin (retries + 1) (by omega) (by omega)
      have hr : retries + 1 < maxRetries := by omega
      obtain ⟨tr1, heq⟩ := ih f (retries + 1) (by omega) (by omega)
        (fun a ha hb => hin a (by omega) (by omega))
      refine ⟨.pollStatus (retries + 1) :: tr1, ?_⟩
      have e1 : f + 1 - (i + 1) = f - i := by omega
      have e2 : retries + (i + 1) = retries + 1 + i := by omega
      rw [e1, e2]
      rcases hp with hp | hp <;> simp [checkRunAux, hp, hr, heq]

/-!
### Handler and setup-phase lemmas
-/

/-- Unfolding of the handler when `createDustRun` succeeds. -/
theorem handleStream_chat_ok (su : SetupUpstream) (pu : PollUpstream)
    (msgs : List ChatMessage) (info : RunInfo)
    (h : (createDustRun su msgs).2 = .ok info) :
    handleStream su pu "chat" (.array msgs) =
      ((createDustRun su msgs).1 ++
         (checkRun pu info.runId info.conversationId).2.1,
       .stream (.start info.runId info.conversationId ::
           (checkRun pu info.runId info.conversationId).1)
         (checkRun pu info.runId info.conversationId).2.2) := by
  simp [handleStream, h]

/-- Unfolding of the handler when `createDustRun` throws: a single id-less
error event is sent (no `start`) and the response is ended. -/
theorem handleStream_chat_error (su : SetupUpstream) (pu : PollUpstream)
    (msgs : List ChatMessage) (e : String)
    (h : (createDustRun su msgs).2 = .error e) :
    handleStream su pu "chat" (.array msgs) =
      ((createDustRun su msgs).1,
       .stream [.setupError ("Error: " ++ e)] true) := by
  simp [handleStream, h]

/-- When every message POST is acknowledged, the context loop posts the
messages in input order and succeeds. -/
theorem postContextMessages_ok (su : SetupUpstream)
    (hp : ∀ i m, su.postMessageResult i m = .ok ()) :
    ∀ (msgs : List ChatMessage) (i : Nat),
      postContextMessages su msgs i = (msgs.map .postMessage, .ok ()) := by
  intro msgs
  induction msgs with
  | nil => intro i; simp [postContextMessages]
  | cons m rest ih => intro i; simp [postContextMessages, hp, ih]

/-- When every upstream setup call succeeds and `messages` is non-empty,
`createDustRun` makes exactly the calls: create conversation, post every
message in input order, create the run — in that order. -/
theorem createDustRun_ok (su : SetupUpstream) (msgs : List ChatMessage)
    (cid rid : String)
    (hc : su.createConversationResult = .ok cid)
    (hp : ∀ i m, su.postMessageResult i m = .ok ())
    (hr : su.createRunResult = .ok rid)
    (hne : msgs ≠ []) :
    createDustRun su msgs =
      (.createConversation :: msgs.map .postMessage ++ [.createRun],
       .ok ⟨cid, rid⟩) := by
  have hlast : msgs.getLast? = some (msgs.getLast hne) :=
    List.getLast?_eq_getLast msgs hne
  have hsplit : msgs.dropLast ++ [msgs.getLast hne] = msgs :=
    List.dropLast_append_getLast hne
  have hm : msgs.dropLast.map UpstreamCall.postMessage ++
      [UpstreamCall.postMessage (msgs.getLast hne)] =
      msgs.map UpstreamCall.postMessage := by
    simpa using congrArg (List.map UpstreamCall.postMessage) hsplit
  simp only [createDustRun, hc, hlast, postContextMessages_ok su hp, hp, hr,
    Prod.mk.injEq]
  refine ⟨?_, trivial⟩
  conv_rhs => rw [← hsplit]
  simp

/-- Every call in a `createDustRun` trace is a setup call, never a
run-status poll. -/
theorem createDustRun_trace_no_poll (su : SetupUpstream) (msgs : List ChatMessage) :
    ∀ a ∈ (createDustRun su msgs).1, isPollStatusB a = false := by
  have haux : ∀ (l : List ChatMessage) (i : Nat),
      ∀ a ∈ (postContextMessages su l i).1, isPollStatusB a = false := by
    intro l
    induction l with
    | nil => intro i; simp [postContextMessages]
    | cons m rest ih =>
      intro i
      cases hm : su.postMessageResult i m with
      | error e => simp [postContextMessages, hm, isPollStatusB]
      | ok u =>
        intro a ha
        simp [postContextMessages, hm] at ha
        rcases ha with rfl | ha
        · rfl
        · exact ih (i + 1) a ha
  cases hc : su.createConversationResult with
  | error e => simp [createDustRun, hc, isPollStatusB]
  | ok cid =>
    cases hlast : msgs.getLast? with
    | none => simp [createDustRun, hc, hlast, isPollStatusB]
    | some userMessage =>
      cases hpc : postContextMessages su msgs.dropLast 0 with
      | mk tr r =>
        have htr : ∀ a ∈ tr, isPollStatusB a = false := by
          have := haux msgs.dropLast 0
          rw [hpc] at this
          exact this
        have hfin : ∀ a ∈ ([] : List UpstreamCall) ++
            [UpstreamCall.postMessage userMessage, UpstreamCall.createRun],
            isPollStatusB a = false := by simp [isPollStatusB]
        cases r with
        | error e =>
          intro a ha
          simp [createDustRun, hc, hlast, hpc] at ha
          rcases ha with rfl | ha
          · rfl
          · exact htr a ha
        | ok u =>
          cases hpm : su.postMessageResult (msgs.length - 1) userMessage with
          | error e =>
            intro a ha
            simp [createDustRun, hc, hlast, hpc, hpm] at ha
            rcases ha with rfl | ha | rfl
            · rfl
            · exact htr a ha
            · rfl
          | ok u2 =>
            cases hcr : su.createRunResult with
            | error e =>
              intro a ha
              simp [createDustRun, hc, hlast, hpc, hpm, hcr] at ha
              rcases ha with rfl | ha | rfl | rfl
              · rfl
              · exact htr a ha
              · rfl
              · rfl
            | ok rid =>
              intro a ha
              simp [createDustRun, hc, hlast, hpc, hpm, hcr] at ha
              rcases ha with rfl | ha | rfl | rfl
              · rfl
              · exact htr a ha
              · rfl
              · rfl

/-- Counting form: `createDustRun` never polls a run status. -/
theorem createDustRun_no_poll (su : SetupUpstream) (msgs : List ChatMessage) :
    (createDustRun su msgs).1.countP isPollStatusB = 0 :=
  List.countP_eq_zero.mpr (fun a ha => by
    simp [createDustRun_trace_no_poll su msgs a ha])

/-- An empty `messages` array passes the array check, creates a
conversation upstream, and then fails: the user message is `undefined`
and posting it throws before any message POST. -/
theorem createDustRun_nil (su : SetupUpstream) :
    ∃ m, createDustRun su [] = ([.createConversation], .error m) := by
  cases hc : su.createConversationResult with
  | error e => exact ⟨"Failed to create conversation: " ++ e, by simp [createDustRun, hc]⟩
  | ok cid => exact ⟨"Failed to post message: " ++ undefinedRoleError, by simp [createDustRun, hc]⟩

/-!
### Claim theorems
-/

/-- C3 (counterexample): the claim says `messages = []` is rejected with
`InvalidRequest` before any upstream call.  In fact the empty array passes
the array check, a conversation is created upstream, and the request then
dies with an SSE error event, not a JSON-RPC rejection. -/
theorem C3_counterexample :
    (handleStream suAllOk puCompletedEmpty "chat" (.array [])).1 =
      [.createConversation] ∧
    (handleStream suAllOk puCompletedEmpty "chat" (.array [])).2 =
      .stream [.setupError ("Error: Failed to post message: " ++ undefinedRoleError)]
        true := ⟨rfl, rfl⟩

/-- C3 (amended): a `messages` field that is absent or not an array is
rejected with the invalid-params JSON-RPC error before any upstream call;
the empty array, however, passes validation, exactly one upstream call
(the conversation creation) is made, and the stream then terminates with
a single id-less error event. -/
theorem C3_validation (su : SetupUpstream) (pu : PollUpstream) :
    handleStream su pu "chat" .notArray =
      ([], .badRequest (-32602) "Invalid params: messages must be an array") ∧
    (handleStream su pu "chat" (.array [])).1 = [.createConversation] ∧
    ∃ m, (handleStream su pu "chat" (.array [])).2 =
      .stream [.setupError ("Error: " ++ m)] true := by
  obtain ⟨m, hm⟩ := createDustRun_nil su
  have h2 : (createDustRun su []).2 = .error m := by rw [hm]
  have h3 := handleStream_chat_error su pu [] m h2
  refine ⟨by simp [handleStream], ?_, m, ?_⟩
  · rw [h3, hm]
  · rw [h3]

/-- C6: with every upstream call acknowledged and more than one message,
`createDustRun` posts all context messages strictly in input order, posts
the user message, and only then creates the run: the awaited upstream
call sequence is conversation creation, the messages in input order, then
run creation. -/
theorem C6_context_order (su : SetupUpstream) (msgs : List ChatMessage)
    (cid rid : String)
    (hc : su.createConversationResult = .ok cid)
    (hp : ∀ i m, su.postMessageResult i m = .ok ())
    (hr : su.createRunResult = .ok rid)
    (hlen : 1 < msgs.length) :
    createDustRun su msgs =
      (.createConversation :: msgs.map .postMessage ++ [.createRun],
       .ok ⟨cid, rid⟩) :=
  createDustRun_ok su msgs cid rid hc hp hr
    (by intro h; subst h; simp at hlen)

/-- C6 witness at a concrete two-message request. -/
theorem C6_witness :
    createDustRun suAllOk twoMessages =
      (.createConversation :: twoMessages.map .postMessage ++ [.createRun],
       .ok ⟨"conv1", "run1"⟩) :=
  C6_context_order suAllOk twoMessages "conv1" "run1" rfl (fun _ _ => rfl) rfl
    (by decide)

/-- C7: for every request and every upstream behaviour, at most one
`content` event is emitted. -/
theorem C7_at_most_one_content (su : SetupUpstream) (pu : PollUpstream)
    (method : String) (field : MessagesField) :
    (resultEvents (handleStream su pu method field).2).countP isContentB ≤ 1 := by
  by_cases hm : method = "chat"
  · subst hm
    cases field with
    | notArray => simp [handleStream, resultEvents]
    | array msgs =>
      cases hres : (createDustRun su msgs).2 with
      | error e =>
          rw [handleStream_chat_error su pu msgs e hres]
          simp [resultEvents, isContentB]
      | ok info =>
          rw [handleStream_chat_ok su pu msgs info hres]
          have := checkRunAux_content_le_one pu info.runId info.conversationId
            maxRetries 0 false
          simpa [resultEvents, checkRun, List.countP_cons, isContentB] using this
  · simp [handleStream, hm, resultEvents]

/-- C8: if the first poll reports `failed`, the stream is exactly
`start` then `error "Run failed"` (with run and conversation ids) and the
response is ended. -/
theorem C8_failed_first_poll (su : SetupUpstream) (pu : PollUpstream)
    (msgs : List ChatMessage) (info : RunInfo)
    (hok : (createDustRun su msgs).2 = .ok info)
    (hp : pu.pollResult 1 = .ok "failed") :
    (handleStream su pu "chat" (.array msgs)).2 =
      .stream [.start info.runId info.conversationId,
               .error info.runId "Run failed" info.conversationId] true := by
  have hloop : checkRun pu info.runId info.conversationId =
      ([.error info.runId "Run failed" info.conversationId],
       [.pollStatus 1], true) := by
    show checkRunAux pu info.runId info.conversationId (59 + 1) 0 false = _
    simp [checkRunAux, hp]
  rw [handleStream_chat_ok su pu msgs info hok, hloop]

/-- C8 witness at a concrete input. -/
theorem C8_witness :
    (handleStream suAllOk puFailed "chat" (.array oneUserMessage)).2 =
      .stream [.start "run1" "conv1", .error "run1" "Run failed" "conv1"]
        true :=
  C8_failed_first_poll suAllOk puFailed oneUserMessage ⟨"conv1", "run1"⟩ rfl rfl

/-- C4: if every poll attempt reports a non-terminal status, exactly 60
run-status polls are made, the stream is `start` then
`error "Request timed out"`, and the response is ended (no further tick
is ever scheduled: the trace is complete). -/
theorem C4_timeout (su : SetupUpstream) (pu : PollUpstream)
    (msgs : List ChatMessage) (info : RunInfo)
    (hok : (createDustRun su msgs).2 = .ok info)
    (hin : ∀ a, 1 ≤ a → a ≤ 60 →
      pu.pollResult a = .ok "in_progress" ∨ pu.pollResult a = .ok "pending") :
    (handleStream su pu "chat" (.array msgs)).2 =
      .stream [.start info.runId info.conversationId,
               .error info.runId "Request timed out" info.conversationId]
        true ∧
    (handleStream su pu "chat" (.array msgs)).1.countP isPollStatusB = 60 := by
  obtain ⟨tr, heq, hcount, hlen⟩ :=
    checkRunAux_timeout pu info.runId info.conversationId
      (by simpa [maxRetries] using hin) maxRetries 0 false (by simp) (by simp [maxRetries])
  have hloop : checkRun pu info.runId info.conversationId =
      ([.error info.runId "Request timed out" info.conversationId], tr, true) := heq
  rw [handleStream_chat_ok su pu msgs info hok, hloop]
  refine ⟨rfl, ?_⟩
  simp only [List.countP_append, createDustRun_no_poll su msgs, hcount]
  simp [maxRetries]

/-- C4 witness at a concrete always-`in_progress` upstream. -/
theorem C4_witness :
    (handleStream suAllOk puInProgress "chat" (.array oneUserMessage)).2 =
      .stream [.start "run1" "conv1",
               .error "run1" "Request timed out" "conv1"] true ∧
    (handleStream suAllOk puInProgress "chat" (.array oneUserMessage)).1.countP
      isPollStatusB = 60 :=
  C4_timeout suAllOk puInProgress oneUserMessage ⟨"conv1", "run1"⟩ rfl
    (fun _ _ _ => Or.inl rfl)

/-- C1 (counterexample): the claim requires exactly one `start` event
even when conversation creation fails upstream; but on that path the
handler emits a single id-less error event and never a `start`. -/
theorem C1_counterexample :
    resultEvents (handleStream suConvFail puCompletedHello "chat"
        (.array oneUserMessage)).2 =
      [.setupError "Error: Failed to create conversation: network down"] ∧
    (resultEvents (handleStream suConvFail puCompletedHello "chat"
        (.array oneUserMessage)).2).countP isStartB = 0 ∧
    oneUserMessage ≠ [] := ⟨rfl, rfl, by decide⟩

/-- C1 (amended): for a non-empty `messages` array and a contract-abiding
upstream, the response is always ended with exactly one terminal event,
which comes last; when run creation succeeds the first event is the only
`start` event, and when setup fails the stream is a single id-less error
event with no `start` at all. -/
theorem C1_start_and_terminal (su : SetupUpstream) (pu : PollUpstream)
    (msgs : List ChatMessage) (_hne : msgs ≠ []) (hc : ContractStatuses pu) :
    ∃ evs ended, (handleStream su pu "chat" (.array msgs)).2 = .stream evs ended ∧
      ended = true ∧
      evs.countP isTerminalB = 1 ∧
      (∃ t, evs.getLast? = some t ∧ isTerminalB t = true) ∧
      ((∃ m, evs = [.setupError m] ∧ evs.countP isStartB = 0) ∨
       (∃ rid cid rest, evs = .start rid cid :: rest ∧
          rest.countP isStartB = 0)) := by
  cases hres : (createDustRun su msgs).2 with
  | error e =>
    refine ⟨[.setupError ("Error: " ++ e)], true,
      by rw [handleStream_chat_error su pu msgs e hres], rfl, ?_, ?_, ?_⟩
    · simp [isTerminalB, isErrorB, isEndB]
    · exact ⟨.setupError ("Error: " ++ e), rfl, by simp [isTerminalB, isErrorB, isEndB]⟩
    · exact .inl ⟨"Error: " ++ e, rfl, by simp [isStartB]⟩
  | ok info =>
    obtain ⟨hend, hshape⟩ :=
      checkRunAux_shape pu info.runId info.conversationId hc maxRetries 0 false
        (by simp) (by simp [maxRetries])
    set lp := checkRunAux pu info.runId info.conversationId maxRetries 0 false with hlp
    refine ⟨.start info.runId info.conversationId :: lp.1, lp.2.2,
      by rw [handleStream_chat_ok su pu msgs info hres]; rfl, hend, ?_, ?_, ?_⟩
    · rcases hshape with h | ⟨c, h⟩ | ⟨m, h⟩ <;>
        simp [h, isTerminalB, isErrorB, isEndB, isStartB, List.countP_cons]
    · rcases hshape with h | ⟨c, h⟩ | ⟨m, h⟩
      · exact ⟨.endEvent info.runId info.conversationId, by simp [h],
          by simp [isTerminalB, isEndB]⟩
      · exact ⟨.endEvent info.runId info.conversationId, by simp [h],
          by simp [isTerminalB, isEndB]⟩
      · exact ⟨.error info.runId m info.conversationId, by simp [h],
          by simp [isTerminalB, isErrorB]⟩
    · refine .inr ⟨info.runId, info.conversationId, lp.1, rfl, ?_⟩
      rcases hshape with h | ⟨c, h⟩ | ⟨m, h⟩ <;> simp [h, isStartB]

/-- C1 witness at a concrete successful run. -/
theorem C1_witness :
    ∃ evs ended,
      (handleStream suAllOk puCompletedHello "chat" (.array oneUserMessage)).2 =
        .stream evs ended ∧
      ended = true ∧
      evs.countP isTerminalB = 1 ∧
      (∃ t, evs.getLast? = some t ∧ isTerminalB t = true) ∧
      ((∃ m, evs = [.setupError m] ∧ evs.countP isStartB = 0) ∨
       (∃ rid cid rest, evs = .start rid cid :: rest ∧
          rest.countP isStartB = 0)) :=
  C1_start_and_terminal suAllOk puCompletedHello oneUserMessage (by decide)
    (fun a s h => by
      simp only [puCompletedHello] at h
      exact .inl (Except.ok.inj h).symm)

/-- C2 (counterexample): the claim says the client always receives either
`start, content, end` or `start, error`; but when the completed
conversation holds no assistant message the stream is `start, end` with
neither a `content` nor an error event. -/
theorem C2_counterexample :
    (handleStream suAllOk puCompletedUserOnly "chat" (.array oneUserMessage)).2 =
      .stream [.start "run1" "conv1", .endEvent "run1" "conv1"] true ∧
    (resultEvents (handleStream suAllOk puCompletedUserOnly "chat"
        (.array oneUserMessage)).2).countP isContentB = 0 ∧
    (resultEvents (handleStream suAllOk puCompletedUserOnly "chat"
        (.array oneUserMessage)).2).countP isErrorB = 0 := ⟨rfl, rfl, rfl⟩

/-- C2 (amended): for a contract-abiding upstream, once `start` is sent
the client always receives `start`, at most one `content`, then exactly
one terminal event, and the response is ended — no execution leaves the
connection open without a subsequent event (the `content` may be missing
even on success, so the full `start, content, end` sequence is not
guaranteed). -/
theorem C2_terminated_sequence (su : SetupUpstream) (pu : PollUpstream)
    (msgs : List ChatMessage) (info : RunInfo) (hc : ContractStatuses pu)
    (hok : (createDustRun su msgs).2 = .ok info) :
    ∃ mid t, (handleStream su pu "chat" (.array msgs)).2 =
        .stream (.start info.runId info.conversationId :: (mid ++ [t])) true ∧
      (mid = [] ∨
        ∃ c, mid = [.content info.runId c "assistant" info.conversationId]) ∧
      isTerminalB t = true := by
  obtain ⟨hend, hshape⟩ :=
    checkRunAux_shape pu info.runId info.conversationId hc maxRetries 0 false
      (by simp) (by simp [maxRetries])
  have hbase := handleStream_chat_ok su pu msgs info hok
  rcases hshape with h | ⟨c, h⟩ | ⟨m, h⟩
  · refine ⟨[], .endEvent info.runId info.conversationId, ?_, .inl rfl,
      by simp [isTerminalB, isEndB]⟩
    rw [hbase]
    simp [checkRun, h, hend]
  · refine ⟨[.content info.runId c "assistant" info.conversationId],
      .endEvent info.runId info.conversationId, ?_, .inr ⟨c, rfl⟩,
      by simp [isTerminalB, isEndB]⟩
    rw [hbase]
    simp [checkRun, h, hend]
  · refine ⟨[], .error info.runId m info.conversationId, ?_, .inl rfl,
      by simp [isTerminalB, isErrorB]⟩
    rw [hbase]
    simp [checkRun, h, hend]

/-- C2 witness at a concrete successful run. -/
theorem C2_witness :
    ∃ mid t,
      (handleStream suAllOk puCompletedHello "chat" (.array oneUserMessage)).2 =
        .stream (.start "run1" "conv1" :: (mid ++ [t])) true ∧
      (mid = [] ∨ ∃ c, mid = [.content "run1" c "assistant" "conv1"]) ∧
      isTerminalB t = true :=
  C2_terminated_sequence suAllOk puCompletedHello oneUserMessage
    ⟨"conv1", "run1"⟩
    (fun a s h => by
      simp only [puCompletedHello] at h
      exact .inl (Except.ok.inj h).symm)
    rfl

/-- C5 (counterexample): the claim says `completed` on attempt k (with no
prior `content`) yields exactly one `content` before `end`; but when the
fetched conversation has no assistant message, zero `content` events are
emitted even though `completed` was observed on the first attempt. -/
theorem C5_counterexample :
    puCompletedUserOnly.pollResult 1 = .ok "completed" ∧
    (handleStream suAllOk puCompletedUserOnly "chat" (.array oneUserMessage)).2 =
      .stream [.start "run1" "conv1", .endEvent "run1" "conv1"] true ∧
    (resultEvents (handleStream suAllOk puCompletedUserOnly "chat"
        (.array oneUserMessage)).2).countP isContentB = 0 := ⟨rfl, rfl, rfl⟩

/-- C5 (amended): if the poller observes `completed` on attempt k
(1 ≤ k ≤ 60) and the fetched message list contains at least one assistant
message, exactly one `content` event precedes `end`, carrying the content
of the most recent assistant message, role `assistant`, and the run and
conversation ids. -/
theorem C5_completed_content (su : SetupUpstream) (pu : PollUpstream)
    (msgs : List ChatMessage) (info : RunInfo) (k : Nat)
    (L : List ChatMessage) (lastA : ChatMessage)
    (hok : (createDustRun su msgs).2 = .ok info)
    (hk1 : 1 ≤ k) (hk60 : k ≤ 60)
    (hprior : ∀ a, 1 ≤ a → a < k →
      pu.pollResult a = .ok "in_progress" ∨ pu.pollResult a = .ok "pending")
    (hcomp : pu.pollResult k = .ok "completed")
    (hfetch : pu.fetchResult = .ok L)
    (hlastA : (L.filter (fun m => m.role = "assistant")).getLast? = some lastA) :
    (handleStream su pu "chat" (.array msgs)).2 =
      .stream [.start info.runId info.conversationId,
               .content info.runId lastA.content "assistant" info.conversationId,
               .endEvent info.runId info.conversationId] true := by
  have hmax : maxRetries = 60 := rfl
  obtain ⟨tr0, heq⟩ :=
    checkRunAux_skip pu info.runId info.conversationId false (k - 1) maxRetries 0
      (by omega) (by omega)
      (fun a ha hb => hprior a (by omega) (by omega))
  simp only [Nat.zero_add] at heq
  obtain ⟨f, hf⟩ : ∃ f, maxRetries - (k - 1) = f + 1 :=
    ⟨maxRetries - (k - 1) - 1, by omega⟩
  have hk2 : k - 1 + 1 = k := by omega
  have hcomp' : pu.pollResult (k - 1 + 1) = .ok "completed" := by
    rw [hk2]; exact hcomp
  have htick : checkRunAux pu info.runId info.conversationId
      (maxRetries - (k - 1)) (k - 1) false =
      ([.content info.runId lastA.content "assistant" info.conversationId,
        .endEvent info.runId info.conversationId],
       [.pollStatus k, .fetchMessages], true) := by
    rw [hf]
    simp [checkRunAux, hcomp', hcomp, hfetch, hlastA, hk2]
  have h1 : (checkRun pu info.runId info.conversationId).1 =
      [.content info.runId lastA.content "assistant" info.conversationId,
       .endEvent info.runId info.conversationId] := by
    rw [checkRun, heq, htick]
  have h3 : (checkRun pu info.runId info.conversationId).2.2 = true := by
    rw [checkRun, heq, htick]
  rw [handleStream_chat_ok su pu msgs info hok, h1, h3]

/-- C5 witness: `completed` on the second attempt with one assistant
message. -/
theorem C5_witness :
    (handleStream suAllOk puCompletedSecond "chat" (.array oneUserMessage)).2 =
      .stream [.start "run1" "conv1",
               .content "run1" "Hello!" "assistant" "conv1",
               .endEvent "run1" "conv1"] true :=
  C5_completed_content suAllOk puCompletedSecond oneUserMessage
    ⟨"conv1", "run1"⟩ 2 [⟨"assistant", "Hello!"⟩] ⟨"assistant", "Hello!"⟩
    rfl (by decide) (by decide)
    (fun a h1 h2 => by
      have ha : a = 1 := by omega
      subst ha
      exact .inl rfl)
    rfl rfl rfl

/-- C10: if an upstream call inside a poll tick throws — a run-status GET,
or the message-list fetch performed after the run was already observed as
`completed` — the stream terminates with a single error event embedding
the exception message, and the response is closed; in particular a
completed run can still end in `error` instead of `end`. -/
theorem C10_tick_exception (su : SetupUpstream) (pu : PollUpstream)
    (msgs : List ChatMessage) (info : RunInfo) (k : Nat) (m : String)
    (hok : (createDustRun su msgs).2 = .ok info)
    (hk1 : 1 ≤ k) (hk60 : k ≤ 60)
    (hprior : ∀ a, 1 ≤ a → a < k →
      pu.pollResult a = .ok "in_progress" ∨ pu.pollResult a = .ok "pending")
    (hcase : pu.pollResult k = .error m ∨
      (pu.pollResult k = .ok "completed" ∧ pu.fetchResult = .error m)) :
    (handleStream su pu "chat" (.array msgs)).2 =
      .stream [.start info.runId info.conversationId,
               .error info.runId ("Error: " ++ m) info.conversationId] true := by
  have hmax : maxRetries = 60 := rfl
  obtain ⟨tr0, heq⟩ :=
    checkRunAux_skip pu info.runId info.conversationId false (k - 1) maxRetries 0
      (by omega) (by omega)
      (fun a ha hb => hprior a (by omega) (by omega))
  simp only [Nat.zero_add] at heq
  obtain ⟨f, hf⟩ : ∃ f, maxRetries - (k - 1) = f + 1 :=
    ⟨maxRetries - (k - 1) - 1, by omega⟩
  have hk2 : k - 1 + 1 = k := by omega
  have htick : ∃ ptr, checkRunAux pu info.runId info.conversationId
      (maxRetries - (k - 1)) (k - 1) false =
      ([.error info.runId ("Error: " ++ m) info.conversationId], ptr, true) := by
    rw [hf]
    rcases hcase with hpoll | ⟨hpoll, hfetch⟩
    · have hpoll' : pu.pollResult (k - 1 + 1) = .error m := by rw [hk2]; exact hpoll
      exact ⟨[.pollStatus k], by simp [checkRunAux, hpoll', hpoll, hk2]⟩
    · have hpoll' : pu.pollResult (k - 1 + 1) = .ok "completed" := by
        rw [hk2]; exact hpoll
      exact ⟨[.pollStatus k, .fetchMessages],
        by simp [checkRunAux, hpoll', hpoll, hfetch, hk2]⟩
  obtain ⟨ptr, htick⟩ := htick
  have h1 : (checkRun pu info.runId info.conversationId).1 =
      [.error info.runId ("Error: " ++ m) info.conversationId] := by
    rw [checkRun, heq, htick]
  have h3 : (checkRun pu info.runId info.conversationId).2.2 = true := by
    rw [checkRun, heq, htick]
  rw [handleStream_chat_ok su pu msgs info hok, h1, h3]

/-- C10 witness: run observed `completed` on the first poll, but the
message-list fetch throws, so the client gets `error`, not `end`. -/
theorem C10_witness :
    (handleStream suAllOk puFetchThrow "chat" (.array oneUserMessage)).2 =
      .stream [.start "run1" "conv1",
               .error "run1" "Error: boom" "conv1"] true :=
  C10_tick_exception suAllOk puFetchThrow oneUserMessage ⟨"conv1", "run1"⟩
    1 "boom" rfl (by decide) (by decide)
    (fun a h1 h2 => by omega)
    (.inr ⟨rfl, rfl⟩)

/-!
### JSON round-trip lemmas
-/

/-- Parsing inverts rendering on a single hexadecimal digit. -/
theorem parseHexDigit_hexDigit : ∀ n, n < 16 → parseHexDigit (hexDigit n) = some n := by
  decide

/-- Hex digits are never a newline. -/
theorem hexDigit_ne_nl : ∀ n, n < 16 → hexDigit n ≠ '\n' := by decide

/-- Every escape expansion is nonempty. -/
theorem escapeChar_length_pos (c : Char) : 1 ≤ (escapeChar c).length := by
  unfold escapeChar
  repeat' split
  all_goals simp

/-- A string body is no longer than its escaped form. -/
theorem length_le_escaped (s : List Char) :
    s.length ≤ ((s.map escapeChar).flatten).length := by
  induction s with
  | nil => simp
  | cons c rest ih =>
    simp only [List.map_cons, List.flatten_cons, List.length_append, List.length_cons]
    have := escapeChar_length_pos c
    omega

/-- No raw newline survives escaping. -/
theorem escapeChar_no_nl (c : Char) : ∀ x ∈ escapeChar c, x ≠ '\n' := by
  intro x hx
  unfold escapeChar at hx
  split at hx
  · simp at hx; rcases hx with rfl | rfl <;> decide
  · split at hx
    · simp at hx; rcases hx with rfl | rfl ; decide
    · split at hx
      · simp at hx; rcases hx with rfl | rfl <;> decide
      · split at hx
        · simp at hx; rcases hx with rfl | rfl <;> decide
        · split at hx
          · simp at hx; rcases hx with rfl | rfl <;> decide
          · split at hx
            · simp at hx; rcases hx with rfl | rfl <;> decide
            · split at hx
              · simp at hx; rcases hx with rfl | rfl <;> decide
              · split at hx
                · next hlt =>
                  simp only [List.mem_cons, List.not_mem_nil, or_false] at hx
                  rcases hx with rfl | rfl | rfl | rfl | rfl | rfl
                  · decide
                  · decide
                  · decide
                  · decide
                  · exact hexDigit_ne_nl (c.toNat / 16) (by omega)
                  · exact hexDigit_ne_nl (c.toNat % 16) (by omega)
                · next hge =>
                  simp only [List.mem_cons, List.not_mem_nil, or_false] at hx
                  subst hx
                  intro hc
                  subst hc
                  exact hge (by decide)

/-- No raw newline occurs in a rendered string literal. -/
theorem renderString_no_nl (s : List Char) : ∀ x ∈ renderString s, x ≠ '\n' := by
  intro x hx
  simp only [renderString, List.mem_cons, List.mem_append] at hx
  rcases hx with (rfl | hx) | hx
  · decide
  · obtain ⟨l, hl, hxl⟩ := List.mem_flatten.mp hx
    obtain ⟨c, _, rfl⟩ := List.mem_map.mp hl
    exact escapeChar_no_nl c x hxl
  · simp only [List.mem_cons, List.not_mem_nil, or_false] at hx
    subst hx; decide

mutual
/-- No raw newline occurs in a rendered JSON value (so the SSE frame's
payload is a single line). -/
theorem renderJVal_no_nl : ∀ (v : JVal), ∀ x ∈ renderJVal v, x ≠ '\n'
  | .str s => by
    intro x hx
    simp only [renderJVal] at hx
    exact renderString_no_nl s.data x hx
  | .obj fs => by
    have h := renderFields_no_nl fs
    intro x hx
    simp only [renderJVal, List.mem_cons, List.mem_append] at hx
    rcases hx with (rfl | hx) | hx
    · decide
    · exact h x hx
    · simp only [List.mem_cons, List.not_mem_nil, or_false] at hx
      subst hx; decide
/-- No raw newline occurs in rendered object fields. -/
theorem renderFields_no_nl : ∀ (fs : JFields), ∀ x ∈ renderFields fs, x ≠ '\n'
  | .nil => by simp [renderFields]
  | .cons k v rest => by
    have h1 := renderJVal_no_nl v
    have h2 := renderFields_no_nl rest
    intro x hx
    cases rest with
    | nil =>
      simp only [renderFields, List.append_nil, List.mem_append, List.mem_cons] at hx
      rcases hx with hx | rfl | hx
      · exact renderString_no_nl k.data x hx
      · decide
      · exact h1 x hx
    | cons k2 v2 rest2 =>
      simp only [renderFields, List.mem_append, List.mem_cons] at hx
      rcases hx with (hx | rfl | hx) | rfl | hx
      · exact renderString_no_nl k.data x hx
      · decide
      · exact h1 x hx
      · decide
      · refine h2 x ?_
        simp only [renderFields, List.mem_append, List.mem_cons]
        exact hx
end

/-- Parsing a string body inverts characterwise escaping: the parser
consumes the escaped form up to the closing quote and returns the
original characters. -/
theorem parseStringBody_roundtrip :
    ∀ (s : List Char) (rest : List Char) (fuel : Nat), s.length < fuel →
      parseStringBody fuel ((s.map escapeChar).flatten ++ '"' :: rest) =
        some (s, rest) := by
  intro s
  induction s with
  | nil =>
    intro rest fuel h
    cases fuel with
    | zero => omega
    | succ f => simp [parseStringBody]
  | cons c s' ih =>
    intro rest fuel h
    cases fuel with
    | zero => omega
    | succ f =>
      have ihf := ih rest f (by simp only [List.length_cons] at h; omega)
      simp only [List.map_cons, List.flatten_cons, List.append_assoc]
      by_cases h1 : c = '"'
      · subst h1; simp [escapeChar, parseStringBody, ihf]
      · by_cases h2 : c = '\\'
        · subst h2; simp [escapeChar, parseStringBody, ihf]
        · by_cases h3 : c = '\n'
          · subst h3; simp [escapeChar, parseStringBody, ihf]
          · by_cases h4 : c = '\r'
            · subst h4; simp [escapeChar, parseStringBody, ihf]
            · by_cases h5 : c = '\t'
              · subst h5; simp [escapeChar, parseStringBody, ihf]
              · by_cases h6 : c.toNat = 8
                · have hc : Char.ofNat 8 = c := by rw [← h6, Char.ofNat_toNat]
                  simp [escapeChar, parseStringBody, h1, h2, h3, h4, h5, h6, ihf]
                  exact hc
                · by_cases h7 : c.toNat = 12
                  · have hc : Char.ofNat 12 = c := by rw [← h7, Char.ofNat_toNat]
                    simp [escapeChar, parseStringBody, h1, h2, h3, h4, h5, h6, h7,
                      ihf]
                    exact hc
                  · by_cases h8 : c.toNat < 32
                    · have e0 : parseHexDigit '0' = some 0 := by decide
                      have e1 := parseHexDigit_hexDigit (c.toNat / 16) (by omega)
                      have e2 := parseHexDigit_hexDigit (c.toNat % 16) (by omega)
                      simp only [escapeChar, h1, h2, h3, h4, h5, h6, h7, h8,
                        if_false, if_true, if_neg, if_pos, List.cons_append,
                        List.nil_append]
                      simp [parseStringBody, e0, e1, e2, ihf]
                      rw [show c.toNat / 16 * 16 + c.toNat % 16 = c.toNat from
                        by omega, Char.ofNat_toNat]
                    · simp [escapeChar, parseStringBody, h1, h2, h3, h4, h5, h6,
                        h7, h8, ihf]

/-- The SSE line split inverts appending a newline-terminated line. -/
theorem splitAtNL_append (l1 l2 : List Char) (h : ∀ x ∈ l1, x ≠ '\n') :
    splitAtNL (l1 ++ '\n' :: l2) = some (l1, l2) := by
  induction l1 with
  | nil => simp [splitAtNL]
  | cons c rest ih =>
    have hc : c ≠ '\n' := h c (by simp)
    have ih2 := ih (fun x hx => h x (by simp [hx]))
    simp [splitAtNL, hc, ih2]

/-- One-step unfolding of `renderFields` on a last field. -/
theorem renderFields_cons_nil (k : String) (v : JVal) :
    renderFields (.cons k v .nil) =
      renderString k.data ++ ':' :: renderJVal v ++ [] := rfl

/-- One-step unfolding of `renderFields` on a non-last field. -/
theorem renderFields_cons_cons (k : String) (v : JVal) (k2 : String)
    (v2 : JVal) (r2 : JFields) :
    renderFields (.cons k v (.cons k2 v2 r2)) =
      renderString k.data ++ ':' :: renderJVal v ++
        (',' :: renderFields (.cons k2 v2 r2)) := rfl

mutual
/-- A value is at most as big as its rendering (fuel adequacy). -/
theorem jsizeV_le_render : ∀ (v : JVal), jsizeV v ≤ (renderJVal v).length
  | .str s => by
    simp [jsizeV, renderJVal, renderString]
  | .obj fs => by
    have h := jsizeF_le_render fs
    simp only [jsizeV, renderJVal, List.length_append, List.length_cons]
    omega
/-- A field list is at most as big as its rendering plus one. -/
theorem jsizeF_le_render : ∀ (fs : JFields), jsizeF fs ≤ (renderFields fs).length + 1
  | .nil => by simp [jsizeF, renderFields]
  | .cons k v rest => by
    have h1 := jsizeV_le_render v
    have h2 := jsizeF_le_render rest
    cases rest with
    | nil =>
      simp only [jsizeF, renderFields_cons_nil, renderString, List.length_append,
        List.length_cons, List.length_nil]
      omega
    | cons k2 v2 r2 =>
      simp only [renderFields_cons_cons, renderString, List.length_append,
        List.length_cons]
      simp only [jsizeF] at h1 h2 ⊢
      omega
end

/-- A rendered nonempty field list starts with a double quote. -/
theorem renderFields_cons_head (k : String) (v : JVal) (fs : JFields) :
    ∃ t, renderFields (.cons k v fs) = '"' :: t := by
  cases fs with
  | nil =>
    refine ⟨(k.data.map escapeChar).flatten ++ ['"'] ++ (':' :: renderJVal v), ?_⟩
    rw [renderFields_cons_nil, renderString]
    simp
  | cons a b c =>
    refine ⟨(k.data.map escapeChar).flatten ++ ['"'] ++ (':' :: renderJVal v) ++
      (',' :: renderFields (.cons a b c)), ?_⟩
    rw [renderFields_cons_cons, renderString]
    simp

/-- Structure eta for strings, used to fold parsed keys back. -/
theorem string_mk_data (s : String) : String.mk s.data = s := rfl

mutual
/-- Parsing inverts rendering for every JSON value of the event
universe. -/
theorem parseJVal_render : ∀ (v : JVal) (rest : List Char) (fuel : Nat),
    jsizeV v < fuel → parseJVal fuel (renderJVal v ++ rest) = some (v, rest)
  | .str s => by
    intro rest fuel h
    cases fuel with
    | zero => omega
    | succ f =>
      have hinput : renderJVal (.str s) ++ rest =
          '"' :: ((s.data.map escapeChar).flatten ++ '"' :: rest) := by
        simp [renderJVal, renderString]
      have hlen : s.data.length <
          ((s.data.map escapeChar).flatten ++ '"' :: rest).length + 1 := by
        have := length_le_escaped s.data
        simp only [List.length_append, List.length_cons]
        omega
      have hps := parseStringBody_roundtrip s.data rest
        (((s.data.map escapeChar).flatten ++ '"' :: rest).length + 1) hlen
      rw [hinput]
      simp [parseJVal]
      simp at hps
      simp [hps, string_mk_data]
  | .obj fs => by
    have hrec := parseFields_render fs
    intro rest fuel h
    cases fuel with
    | zero => omega
    | succ f =>
      cases fs with
      | nil =>
        have hinput : renderJVal (.obj .nil) ++ rest = lbrace :: rbrace :: rest := by
          simp [renderJVal, renderFields]
        rw [hinput]
        have h1 : ¬ (lbrace = '"') := by decide
        simp [parseJVal, h1]
      | cons k v fs2 =>
        have hne : JFields.cons k v fs2 ≠ .nil := by intro hx; cases hx
        have hsz : jsizeF (.cons k v fs2) < f := by
          simp only [jsizeV] at h
          omega
        have hpf := hrec rest f hne hsz
        obtain ⟨t, ht⟩ := renderFields_cons_head k v fs2
        have hr1 : renderFields (.cons k v fs2) ++ rbrace :: rest =
            '"' :: (t ++ rbrace :: rest) := by rw [ht]; simp
        have hinput : renderJVal (.obj (.cons k v fs2)) ++ rest =
            lbrace :: ('"' :: (t ++ rbrace :: rest)) := by
          have hx : renderJVal (.obj (.cons k v fs2)) ++ rest =
              lbrace :: (renderFields (.cons k v fs2) ++ rbrace :: rest) := by
            simp [renderJVal]
          rw [hx, hr1]
        rw [hinput]
        have hq1 : ¬ (lbrace = '"') := by decide
        have hq2 : ¬ ('"' = rbrace) := by decide
        simp only [parseJVal]
        simp only [hq1, if_false, hq2, ite_false]
        rw [← hr1, hpf]
        simp
/-- Parsing inverts rendering for every nonempty field list followed by
the closing brace. -/
theorem parseFields_render : ∀ (fs0 : JFields) (rest : List Char) (fuel : Nat),
    fs0 ≠ .nil → jsizeF fs0 < fuel →
    parseFields fuel (renderFields fs0 ++ rbrace :: rest) = some (fs0, rest)
  | .nil => by
    intro rest fuel hne _
    exact absurd rfl hne
  | .cons k v fs => by
    have hrecV := parseJVal_render v
    have hrecF := parseFields_render fs
    intro rest fuel hne h
    cases fuel with
    | zero => omega
    | succ f =>
      cases fs with
      | nil =>
        have hinput : renderFields (.cons k v .nil) ++ rbrace :: rest =
            '"' :: ((k.data.map escapeChar).flatten ++ '"' ::
              (':' :: (renderJVal v ++ rbrace :: rest))) := by
          rw [renderFields_cons_nil, renderString]
          simp
        have hlen : k.data.length <
            ((k.data.map escapeChar).flatten ++ '"' ::
              (':' :: (renderJVal v ++ rbrace :: rest))).length + 1 := by
          have := length_le_escaped k.data
          simp only [List.length_append, List.length_cons]
          omega
        have hps := parseStringBody_roundtrip k.data
          (':' :: (renderJVal v ++ rbrace :: rest))
          (((k.data.map escapeChar).flatten ++ '"' ::
            (':' :: (renderJVal v ++ rbrace :: rest))).length + 1) hlen
        have hpv := hrecV (rbrace :: rest) f (by simp only [jsizeF] at h; omega)
        have hq3 : ¬ (rbrace = ',') := by decide
        rw [hinput]
        simp [parseFields]
        simp at hps
        simp [hps, hpv, hq3, string_mk_data]
      | cons k2 v2 fs2 =>
        have hinput : renderFields (.cons k v (.cons k2 v2 fs2)) ++ rbrace :: rest =
            '"' :: ((k.data.map escapeChar).flatten ++ '"' ::
              (':' :: (renderJVal v ++ ',' ::
                (renderFields (.cons k2 v2 fs2) ++ rbrace :: rest)))) := by
          rw [renderFields_cons_cons, renderString]
          simp
        have hlen : k.data.length <
            ((k.data.map escapeChar).flatten ++ '"' ::
              (':' :: (renderJVal v ++ ',' ::
                (renderFields (.cons k2 v2 fs2) ++ rbrace :: rest)))).length + 1 := by
          have := length_le_escaped k.data
          simp only [List.length_append, List.length_cons]
          omega
        have hps := parseStringBody_roundtrip k.data
          (':' :: (renderJVal v ++ ',' ::
            (renderFields (.cons k2 v2 fs2) ++ rbrace :: rest)))
          (((k.data.map escapeChar).flatten ++ '"' ::
            (':' :: (renderJVal v ++ ',' ::
              (renderFields (.cons k2 v2 fs2) ++ rbrace :: rest)))).length + 1) hlen
        have hpv := hrecV (',' :: (renderFields (.cons k2 v2 fs2) ++ rbrace :: rest))
          f (by simp only [jsizeF] at h; omega)
        have hpf2 := hrecF rest f (by intro hx; cases hx)
          (by simp only [jsizeF] at h ⊢; omega)
        rw [hinput]
        simp [parseFields]
        simp at hps
        simp [hps, hpv, hpf2, string_mk_data]
end

/-- C9: serializing any outbound event as an SSE frame
(`data: <json>` plus a blank line) and parsing the frame's data payload
back as JSON yields exactly the original event object. -/
theorem C9_sse_roundtrip (e : OutboundEvent) :
    decodeSSEFrame (sendEventFrame e) = some (eventJson e) := by
  have hnl := renderJVal_no_nl (eventJson e)
  have hsize : jsizeV (eventJson e) < (renderJVal (eventJson e)).length + 1 := by
    have := jsizeV_le_render (eventJson e)
    omega
  have hparse := parseJVal_render (eventJson e) []
    ((renderJVal (eventJson e)).length + 1) hsize
  rw [List.append_nil] at hparse
  have hlen6 : ("data: ".data).length = 6 := rfl
  have h1 : sendEventFrame e =
      "data: ".data ++ (renderJVal (eventJson e) ++ '\n' :: ['\n']) := by
    simp [sendEventFrame]
  have htake : ("data: ".data ++
      (renderJVal (eventJson e) ++ '\n' :: ['\n'])).take 6 = "data: ".data := by
    rw [← hlen6, List.take_left]
  have hdrop : ("data: ".data ++
      (renderJVal (eventJson e) ++ '\n' :: ['\n'])).drop 6 =
      renderJVal (eventJson e) ++ '\n' :: ['\n'] := by
    rw [← hlen6, List.drop_left]
  have hsp := splitAtNL_append (renderJVal (eventJson e)) ['\n'] hnl
  simp [decodeSSEFrame, extractData, h1, htake, hdrop, hsp, hparse]

